import Mathlib

/-!
Verification of the timegate Temporal Negotiation Engine
(`src/tgutils.py` and `src/application.py`).

Times are embedded as integers (a Python `datetime` is an instant measured in
microseconds; subtraction of two datetimes yields a `timedelta` whose
comparison order agrees with the integer difference).  The `abs` of a
difference models `abs(accept_datetime - dt)`.
-/

/-- Python's `timedelta.max` measured in microseconds:
`timedelta(days=999999999, hours=23, minutes=59, seconds=59, microseconds=999999)`.
Any difference of two valid Python datetimes is strictly below this bound. -/
def tdMax : Int := 86399999999999999999

abbrev Url := String

/-- A timemap as used by `tgutils.closest`: a list of `(url, datetime)` pairs. -/
abbrev Timemap := List (Url × Int)

/-- The loop of `tgutils.closest` (lines 120-133): `delta` is the best absolute
difference seen so far (initially `timedelta.max`), `memento` the best URL so
far (initially `None`).  In sorted mode the loop returns as soon as the
difference stops strictly decreasing. -/
def closestLoop : Timemap → Int → Int → Option Url → Bool → Option Url
  | [], _, _, memento, _ => memento
  | (url, dt) :: rest, accept_datetime, delta, memento, sorted =>
    if |accept_datetime - dt| < delta then
      closestLoop rest accept_datetime |accept_datetime - dt| (some url) sorted
    else if sorted then
      memento
    else
      closestLoop rest accept_datetime delta memento sorted

/-- `tgutils.closest(timemap, accept_datetime, sorted=True)`. -/
def closest (timemap : Timemap) (accept_datetime : Int) (sorted : Bool := true) :
    Option Url :=
  closestLoop timemap accept_datetime tdMax none sorted

lemma closestLoop_all_ge (t : Int) :
    ∀ (l : Timemap) (delta : Int) (mem : Option Url),
      (∀ p ∈ l, delta ≤ |t - p.2|) → closestLoop l t delta mem false = mem := by
  intro l
  induction l with
  | nil => intro delta mem _; rfl
  | cons hd tl ih =>
    intro delta mem h
    obtain ⟨u, d⟩ := hd
    have h0 : ¬ |t - d| < delta := not_lt.mpr (h (u, d) (List.mem_cons_self _ _))
    simp only [closestLoop, if_neg h0, Bool.false_eq_true, if_false]
    exact ih delta mem fun p hp => h p (List.mem_cons_of_mem _ hp)

lemma closestLoop_false_min (t : Int) :
    ∀ (l : Timemap) (delta : Int) (mem : Option Url),
      ¬ (∀ p ∈ l, delta ≤ |t - p.2|) →
      ∃ (pre : Timemap) (u : Url) (dt : Int) (post : Timemap),
        l = pre ++ (u, dt) :: post ∧
        closestLoop l t delta mem false = some u ∧
        |t - dt| < delta ∧
        (∀ p ∈ l, |t - dt| ≤ |t - p.2|) ∧
        (∀ p ∈ pre, |t - dt| < |t - p.2|) := by
  intro l
  induction l with
  | nil =>
    intro delta mem h
    exact absurd (fun p hp => absurd hp (List.not_mem_nil p)) h
  | cons hd tl ih =>
    intro delta mem h
    obtain ⟨u, d⟩ := hd
    by_cases hud : |t - d| < delta
    · by_cases htl : ∀ p ∈ tl, |t - d| ≤ |t - p.2|
      · refine ⟨[], u, d, tl, rfl, ?_, hud, ?_, ?_⟩
        · simp only [closestLoop, if_pos hud]
          exact closestLoop_all_ge t tl |t - d| (some u) htl
        · intro p hp
          rcases List.mem_cons.mp hp with hp | hp
          · rw [hp]
          · exact htl p hp
        · intro p hp
          exact absurd hp (List.not_mem_nil p)
      · obtain ⟨pre, u', dt', post, heq, hres, hlt, hall, hpre⟩ :=
          ih |t - d| (some u) htl
        refine ⟨(u, d) :: pre, u', dt', post, by rw [heq]; rfl, ?_,
          lt_trans hlt hud, ?_, ?_⟩
        · simp only [closestLoop, if_pos hud]
          exact hres
        · intro p hp
          rcases List.mem_cons.mp hp with hp | hp
          · rw [hp]; exact le_of_lt hlt
          · exact hall p hp
        · intro p hp
          rcases List.mem_cons.mp hp with hp | hp
          · rw [hp]; exact hlt
          · exact hpre p hp
    · have hd0 : delta ≤ |t - d| := not_lt.mp hud
      have htl : ¬ ∀ p ∈ tl, delta ≤ |t - p.2| := by
        intro hc
        apply h
        intro p hp
        rcases List.mem_cons.mp hp with hp | hp
        · rw [hp]; exact hd0
        · exact hc p hp
      obtain ⟨pre, u', dt', post, heq, hres, hlt, hall, hpre⟩ := ih delta mem htl
      refine ⟨(u, d) :: pre, u', dt', post, by rw [heq]; rfl, ?_, hlt, ?_, ?_⟩
      · simp only [closestLoop, if_neg hud, Bool.false_eq_true, if_false]
        exact hres
      · intro p hp
        rcases List.mem_cons.mp hp with hp | hp
        · rw [hp]; exact le_of_lt (lt_of_lt_of_le hlt hd0)
        · exact hall p hp
      · intro p hp
        rcases List.mem_cons.mp hp with hp | hp
        · rw [hp]; exact lt_of_lt_of_le hlt hd0
        · exact hpre p hp

/-- Python's `sep.join(strings)`. -/
def pyJoin (sep : String) : List String → String
  | [] => ""
  | [x] => x
  | x :: rest => x ++ sep ++ pyJoin sep rest

/-- The `'<%s>; rel="original"' % uri_r` link of `resptimemap`/`respmemento`. -/
def original_link (uri_r : String) : String :=
  "<" ++ uri_r ++ ">; rel=\"original\""

/-- The `rel="timegate"` link of `resptimemap` (`HOST` and `TIMEGATESTR` are
configuration constants, taken as parameters). -/
def timegate_link (host tgstr uri_r : String) : String :=
  "<" ++ host ++ "/" ++ tgstr ++ "/" ++ uri_r ++ ">; rel=\"timegate\""

/-- The `rel="self"` link of `resptimemap` before any from/until bounds are
appended. -/
def self_link_base (host tmstr uri_r : String) : String :=
  "<" ++ host ++ "/" ++ tmstr ++ "/" ++ uri_r ++ ">; rel=\"self\"; type=\"application/link-format\""

/-- One `rel="memento"` link of `resptimemap`; `dateStr` models
`date_str(date)` = `date.strftime(DATEFMT)` (the format is a configuration
constant). -/
def memento_link (dateStr : Int → String) (p : Url × Int) : String :=
  "<" ++ p.1 ++ ">; rel=\"memento\"; datetime=\"" ++ dateStr p.2 ++ "\""

/-- The `rel="first memento"` link of `resptimemap`. -/
def first_link (dateStr : Int → String) (p : Url × Int) : String :=
  "<" ++ p.1 ++ ">; rel=\"first memento\"; datetime=\"" ++ dateStr p.2 ++ "\""

/-- The `rel="last memento"` link of `resptimemap`. -/
def last_link (dateStr : Int → String) (p : Url × Int) : String :=
  "<" ++ p.1 ++ ">; rel=\"last memento\"; datetime=\"" ++ dateStr p.2 ++ "\""

/-- The first/last search loop of `resptimemap` (lines 198-204): starting from
`first = last = mementos[0]`, each entry strictly earlier than the current
first becomes the first, else each entry strictly later than the current last
becomes the last. -/
def flLoop : Timemap → (Url × Int) → (Url × Int) → (Url × Int) × (Url × Int)
  | [], first, last => (first, last)
  | (urlstr, date) :: rest, first, last =>
    if date < first.2 then flLoop rest (urlstr, date) last
    else if date > last.2 then flLoop rest first (urlstr, date)
    else flLoop rest first last

/-- A timemap response: status and link-format body. -/
structure TmResponse where
  status : Nat
  body : String
deriving DecidableEq

/-- `application.resptimemap` (lines 173-234): builds the link-format body.
`dateStr`, `host`, `tgstr`, `tmstr` stand for the configuration constants
`DATEFMT` formatting, `HOST`, `TIMEGATESTR` and `TIMEMAPSTR`. -/
def resptimemap (dateStr : Int → String) (host tgstr tmstr : String)
    (mementos : Timemap) (uri_r : String) : TmResponse :=
  let olink := original_link uri_r
  let tlink := timegate_link host tgstr uri_r
  let slink := self_link_base host tmstr uri_r
  match mementos with
  | [] =>
    ⟨200, pyJoin ",\n" [olink, tlink, slink] ++ "\n"⟩
  | m0 :: _ =>
    let fl := flLoop mementos m0 m0
    let mementos_links := mementos.map (memento_link dateStr)
    let slink' := slink ++ "; from=\"" ++ dateStr fl.1.2 ++ "\"; until=\"" ++
      dateStr fl.2.2 ++ "\""
    ⟨200, pyJoin ",\n"
      ([olink, tlink, slink'] ++
        [first_link dateStr fl.1, last_link dateStr fl.2] ++ mementos_links) ++ "\n"⟩

/-- A memento (redirect) response: status, `Location` header value (Python
`None` when no memento was found), `Link` header value, body. -/
structure MemResponse where
  status : Nat
  location : Option Url
  linkHeader : String
  body : List String
deriving DecidableEq

/-- `application.respmemento` (lines 136-170): a 302 response whose
`Location` is the chosen memento URI (possibly Python `None`). -/
def respmemento (uri_m : Option Url) (uri_r : String) (host tmstr : String)
    (singleonly : Bool) : MemResponse :=
  let base := original_link uri_r
  let linkheaderval :=
    if singleonly then base
    else base ++ ", <" ++ host ++ "/" ++ tmstr ++ "/" ++ uri_r ++
      ">; rel=\"timemap\"; type=\"application/link-format\""
  ⟨302, uri_m, linkheaderval, []⟩

/-- The tail of `application.timegate` (lines 285-294), with the timeline
obtained from the cache or the handler passed in as `mementos`: select the
closest memento (default `sorted=True` flag, as called on line 292) and build
the redirect response. -/
def timegateCore (mementos : Timemap) (accept_datetime : Int) (uri_r : String)
    (host tmstr : String) (singleonly : Bool) : MemResponse :=
  respmemento (closest mementos accept_datetime) uri_r host tmstr singleonly

/-- `application.resperror` (lines 121-133): the body list holds the single
string `"%s \n %s \n" % (status, message)`. -/
def resperror (status : Nat) (message : String) : List String :=
  [toString status ++ " \n " ++ message ++ " \n"]

/-- A handler (provider) as the registration loop sees it: the URI patterns it
serves (a compiled regex is embedded as its anchored match predicate) and the
`singleonly` (pointOnly) flag.  `getone`/`getall` are external API calls and
play no role in the routing claims. -/
structure Handler where
  resources : List (String → Bool)
  singleonly : Bool

/-- Errors raised by the routing/parsing layer (`errors.urierror`,
`errors.dateerror`): message and HTTP status. -/
inductive TgError where
  | uriRequestError (msg : String) (status : Nat)
deriving DecidableEq

/-- The mapper-building loop of `application.py` (lines 27-57): every
(pattern, handler) pair goes into `tgate_mapper`; only pairs of handlers with
`singleonly` false also go into `tmap_mapper`.  Returns
`(tgate_mapper, tmap_mapper)`. -/
def buildMappers : List Handler →
    List ((String → Bool) × Handler) × List ((String → Bool) × Handler)
  | [] => ([], [])
  | h :: rest =>
    (h.resources.map (fun r => (r, h)) ++ (buildMappers rest).1,
     (if h.singleonly then [] else h.resources.map (fun r => (r, h))) ++
       (buildMappers rest).2)

/-- The scan inside `application.loadhandler` (lines 257-261): the first
pair whose regex matches the URI wins. -/
def findHandler : List ((String → Bool) × Handler) → String → Option Handler
  | [], _ => none
  | (regex, handler) :: rest, uri =>
    if regex uri then some handler else findHandler rest uri

/-- `application.loadhandler` (lines 237-264): picks the mapper according to
the request kind and returns the first matching handler, raising a 404
`URIRequestError` when none matches. -/
def loadhandler
    (mappers : List ((String → Bool) × Handler) × List ((String → Bool) × Handler))
    (uri : String) (singlerequest : Bool) : Except TgError Handler :=
  let mapper := if singlerequest then mappers.1 else mappers.2
  let method := if singlerequest then "timegate" else "timemap"
  match findHandler mapper uri with
  | some handler => .ok handler
  | none => .error (.uriRequestError
      ("Cannot find any " ++ method ++ " handler for " ++ uri) 404)

/-- A Python `datetime` as `validate_req_datetime` manipulates it: the naive
wall-clock reading (in microseconds) and the attached `tzinfo` (a UTC offset
in minutes, `none` for a naive datetime).  `datetime.replace(tzinfo=...)`
swaps the `tzinfo` and keeps every wall-clock field. -/
structure PyDatetime where
  wall : Int
  tz : Option Int
deriving DecidableEq

/-- `dateutil.tz.tzutc()`: offset zero. -/
def tzutc : Option Int := some 0

/-- `date.replace(tzinfo=tzinfo)`: wall-clock fields unchanged, `tzinfo`
overwritten (no instant conversion). -/
def datetimeReplaceTz (date : PyDatetime) (tzinfo : Option Int) : PyDatetime :=
  ⟨date.wall, tzinfo⟩

/-- `tgutils.validate_req_datetime` (lines 15-31), parameterized by the
parser actually used (`datetime.strptime(datestr, DATEFMT)` in strict mode —
which always yields a naive datetime — or `dateutil.parser.parse(datestr,
fuzzy=True)` in lenient mode): on success the parsed datetime's `tzinfo` is
overwritten with `tzutc()`, on failure a `DateTimeError` propagates. -/
def validate_req_datetime (parse : String → Except String PyDatetime)
    (datestr : String) : Except String PyDatetime :=
  match parse datestr with
  | .ok date => .ok (datetimeReplaceTz date tzutc)
  | .error e => .error
      ("Error parsing Accept-Datetime: " ++ datestr ++ " Message: " ++ e)

/-- C1: for every non-empty timemap (of valid datetimes, so every absolute
difference is below `timedelta.max`), the full scan of `closest` returns the
URL of the entry minimizing the absolute difference to the target, and on ties
the first such entry in iteration order; in particular on the timeline
`[("A",2020-01-01),("B",2020-06-01),("C",2021-01-01)]` with target `2020-05-01`
(microseconds since the epoch) it returns `"B"`, under the default sorted flag
as well as under the full scan. -/
theorem closest_returns_min_first :
    (∀ (tm : Timemap) (t : Int), tm ≠ [] → (∀ p ∈ tm, |t - p.2| < tdMax) →
      ∃ (pre : Timemap) (u : Url) (dt : Int) (post : Timemap),
        tm = pre ++ (u, dt) :: post ∧
        closest tm t false = some u ∧
        (∀ p ∈ tm, |t - dt| ≤ |t - p.2|) ∧
        (∀ p ∈ pre, |t - dt| < |t - p.2|)) ∧
    closest [("A", 1577836800000000), ("B", 1590969600000000),
      ("C", 1609459200000000)] 1588291200000000 = some "B" ∧
    closest [("A", 1577836800000000), ("B", 1590969600000000),
      ("C", 1609459200000000)] 1588291200000000 false = some "B" := by
  refine ⟨?_, by decide, by decide⟩
  intro tm t hne hb
  have hnall : ¬ ∀ p ∈ tm, tdMax ≤ |t - p.2| := by
    match tm, hne with
    | p :: tl, _ =>
      intro hc
      exact absurd (hc p (List.mem_cons_self _ _))
        (not_le.mpr (hb p (List.mem_cons_self _ _)))
  obtain ⟨pre, u, dt, post, heq, hres, _, hall, hpre⟩ :=
    closestLoop_false_min t tm tdMax none hnall
  exact ⟨pre, u, dt, post, heq, hres, hall, hpre⟩

lemma closestLoop_sorted_eq (t : Int) :
    ∀ (l : Timemap) (delta : Int) (mem : Option Url),
      List.Pairwise (fun p q => p.2 < q.2) l →
      ((∀ p ∈ l, |t - p.2| < delta) ∨
        ∃ c : Int, delta = |t - c| ∧ ∀ p ∈ l, c < p.2) →
      closestLoop l t delta mem true = closestLoop l t delta mem false := by
  intro l
  induction l with
  | nil => intros; rfl
  | cons hd tl ih =>
    intro delta mem hpw hinv
    obtain ⟨u, d⟩ := hd
    have hdlt : ∀ p ∈ tl, d < p.2 := fun p hp => (List.pairwise_cons.mp hpw).1 p hp
    have hpw' := (List.pairwise_cons.mp hpw).2
    by_cases hud : |t - d| < delta
    · simp only [closestLoop, if_pos hud]
      exact ih |t - d| (some u) hpw' (Or.inr ⟨d, rfl, hdlt⟩)
    · have hd0 : delta ≤ |t - d| := not_lt.mp hud
      rcases hinv with hsm | ⟨c, hdc, hc⟩
      · exact absurd (hsm (u, d) (List.mem_cons_self _ _)) (not_lt.mpr hd0)
      · have hcd : c < d := hc (u, d) (List.mem_cons_self _ _)
        have htd : t ≤ d := by
          by_contra hdt
          push_neg at hdt
          have h1 : |t - d| = t - d := abs_of_nonneg (by omega)
          have h2 : |t - c| = t - c := abs_of_nonneg (by omega)
          rw [h1] at hd0
          rw [h2] at hdc
          omega
        have habs : |t - d| = d - t := by
          rw [abs_of_nonpos (by omega)]
          ring
        rw [habs] at hd0
        have hexit : ∀ p ∈ tl, delta ≤ |t - p.2| := by
          intro p hp
          have h1 : d < p.2 := hdlt p hp
          have h3 : |t - p.2| = p.2 - t := by
            rw [abs_of_nonpos (by omega)]
            ring
          rw [h3]
          omega
        simp only [closestLoop, if_neg hud, Bool.false_eq_true, if_false]
        exact (closestLoop_all_ge t tl delta mem hexit).symm

/-- C2 (amended): on a timeline that is *strictly* sorted in ascending order
by timestamp, with the target at a valid datetime distance from every entry
(every absolute difference below `timedelta.max`), the early-exit scan
(`sorted=True`) and the full scan (`sorted=False`) of `closest` return the
same result.  With merely non-descending timestamps the two scans can
disagree (see the counterexample). -/
theorem closest_strictly_sorted_eq_full_scan (tm : Timemap) (t : Int)
    (hsort : List.Pairwise (fun p q => p.2 < q.2) tm)
    (hbound : ∀ p ∈ tm, |t - p.2| < tdMax) :
    closest tm t true = closest tm t false :=
  closestLoop_sorted_eq t tm tdMax none hsort (Or.inl hbound)

theorem closest_strictly_sorted_eq_full_scan_witness :
    (List.Pairwise (fun p q : Url × Int => p.2 < q.2) [("A", 0), ("B", 10)] ∧
      (∀ p ∈ ([("A", 0), ("B", 10)] : Timemap), |(5 : Int) - p.2| < tdMax)) ∧
    closest [("A", 0), ("B", 10)] 5 true = closest [("A", 0), ("B", 10)] 5 false :=
  ⟨⟨by decide, by decide⟩,
    closest_strictly_sorted_eq_full_scan _ _ (by decide) (by decide)⟩

/-- C2 (counterexample): the timeline `[("A",5),("B",5),("C",10)]` is sorted
in ascending order by timestamp (non-descending), yet on target `10` the
early-exit scan returns `"A"` while the full scan returns `"C"`: the
early-exit fires on the duplicate timestamp before the true minimum is
reached. -/
theorem closest_sorted_flag_counterexample :
    List.Pairwise (fun p q : Url × Int => p.2 ≤ q.2) [("A", 5), ("B", 5), ("C", 10)] ∧
    closest [("A", 5), ("B", 5), ("C", 10)] 10 true = some "A" ∧
    closest [("A", 5), ("B", 5), ("C", 10)] 10 false = some "C" := by
  refine ⟨by decide, by decide, by decide⟩

theorem closest_returns_min_first_witness :
    (([("A", 1577836800000000), ("B", 1590969600000000),
        ("C", 1609459200000000)] : Timemap) ≠ [] ∧
      (∀ p ∈ ([("A", 1577836800000000), ("B", 1590969600000000),
        ("C", 1609459200000000)] : Timemap),
        |(1588291200000000 : Int) - p.2| < tdMax)) ∧
    (∃ (pre : Timemap) (u : Url) (dt : Int) (post : Timemap),
      ([("A", 1577836800000000), ("B", 1590969600000000),
        ("C", 1609459200000000)] : Timemap) = pre ++ (u, dt) :: post ∧
      closest [("A", 1577836800000000), ("B", 1590969600000000),
        ("C", 1609459200000000)] 1588291200000000 false = some u ∧
      (∀ p ∈ ([("A", 1577836800000000), ("B", 1590969600000000),
        ("C", 1609459200000000)] : Timemap),
        |(1588291200000000 : Int) - dt| ≤ |(1588291200000000 : Int) - p.2|) ∧
      (∀ p ∈ pre, |(1588291200000000 : Int) - dt| < |(1588291200000000 : Int) - p.2|)) :=
  ⟨⟨by decide, by decide⟩,
    closest_returns_min_first.1 _ _ (by decide) (by decide)⟩

/-- C4 (the claim fails on the code): in the timegate flow an empty timeline
never raises an error — `closest([], t)` yields Python `None` and
`respmemento` happily builds the 302 redirect with `Location: None` and an
empty body.  No `NoMementoError` exists in the code. -/
theorem timegate_empty_timeline_redirects (accept_datetime : Int)
    (uri_r host tmstr : String) (singleonly : Bool) :
    timegateCore [] accept_datetime uri_r host tmstr singleonly =
      respmemento none uri_r host tmstr singleonly ∧
    (timegateCore [] accept_datetime uri_r host tmstr singleonly).status = 302 ∧
    (timegateCore [] accept_datetime uri_r host tmstr singleonly).location = none := by
  exact ⟨rfl, rfl, rfl⟩

lemma findHandler_eq_none (uri : String) :
    ∀ mapper : List ((String → Bool) × Handler),
      (∀ ph ∈ mapper, ph.1 uri = false) → findHandler mapper uri = none := by
  intro mapper
  induction mapper with
  | nil => intro _; rfl
  | cons hd tl ih =>
    intro h
    obtain ⟨regex, handler⟩ := hd
    have h0 : regex uri = false := h (regex, handler) (List.mem_cons_self _ _)
    simp only [findHandler, h0, Bool.false_eq_true, if_false]
    exact ih fun p hp => h p (List.mem_cons_of_mem _ hp)

lemma mem_buildMappers_tmap :
    ∀ (hs : List Handler) (ph : (String → Bool) × Handler),
      ph ∈ (buildMappers hs).2 →
      ph.2 ∈ hs ∧ ph.1 ∈ ph.2.resources ∧ ph.2.singleonly = false := by
  intro hs
  induction hs with
  | nil => intro ph h; exact absurd h (List.not_mem_nil ph)
  | cons h0 tl ih =>
    intro ph hmem
    simp only [buildMappers] at hmem
    rcases List.mem_append.mp hmem with hl | hr
    · by_cases hs0 : h0.singleonly
      · rw [if_pos hs0] at hl
        exact absurd hl (List.not_mem_nil ph)
      · rw [if_neg hs0] at hl
        obtain ⟨r, hr0, hph⟩ := List.mem_map.mp hl
        refine ⟨?_, ?_, ?_⟩
        · rw [← hph]; exact List.mem_cons_self _ _
        · rw [← hph]; exact hr0
        · rw [← hph]
          simpa using hs0
    · obtain ⟨hm, hres, hso⟩ := ih ph hr
      exact ⟨List.mem_cons_of_mem _ hm, hres, hso⟩

lemma mem_buildMappers_tgate :
    ∀ (hs : List Handler) (h : Handler), h ∈ hs →
      ∀ r ∈ h.resources, (r, h) ∈ (buildMappers hs).1 := by
  intro hs
  induction hs with
  | nil => intro h hm; exact absurd hm (List.not_mem_nil h)
  | cons h0 tl ih =>
    intro h hm r hr
    simp only [buildMappers]
    rcases List.mem_cons.mp hm with rfl | hm
    · exact List.mem_append_left _ (List.mem_map.mpr ⟨r, hr, rfl⟩)
    · exact List.mem_append_right _ (ih h hm r hr)

/-- C5: pointOnly (`singleonly`) handlers are registered in the timegate
mapper only — every pattern of every handler lands in `tgate_mapper`, the
`tmap_mapper` holds no `singleonly` handler — and when every handler with a
pattern matching the URI is `singleonly`, routing a timemap request for that
URI raises the 404 `URIRequestError` instead of returning a handler. -/
theorem pointonly_excluded_from_timemap_routes (hs : List Handler) (uri : String) :
    (∀ ph ∈ (buildMappers hs).2, ph.2.singleonly = false) ∧
    (∀ h ∈ hs, ∀ r ∈ h.resources, (r, h) ∈ (buildMappers hs).1) ∧
    ((∀ h ∈ hs, ∀ r ∈ h.resources, r uri = true → h.singleonly = true) →
      loadhandler (buildMappers hs) uri false =
        .error (.uriRequestError
          ("Cannot find any " ++ "timemap" ++ " handler for " ++ uri) 404)) := by
  refine ⟨fun ph hp => (mem_buildMappers_tmap hs ph hp).2.2,
    fun h hm => mem_buildMappers_tgate hs h hm, ?_⟩
  intro hall
  have hnone : findHandler (buildMappers hs).2 uri = none := by
    apply findHandler_eq_none
    intro ph hp
    obtain ⟨hmem, hres, hsingle⟩ := mem_buildMappers_tmap hs ph hp
    cases hb : ph.1 uri with
    | false => rfl
    | true =>
      have h1 := hall ph.2 hmem ph.1 hres hb
      rw [hsingle] at h1
      exact absurd h1 (by decide)
  simp only [loadhandler, Bool.false_eq_true, if_false, hnone]

theorem pointonly_excluded_from_timemap_routes_witness :
    loadhandler (buildMappers [⟨[fun _ => true], true⟩]) "http://a/x" false =
      .error (.uriRequestError
        ("Cannot find any " ++ "timemap" ++ " handler for " ++ "http://a/x") 404) :=
  (pointonly_excluded_from_timemap_routes [⟨[fun _ => true], true⟩] "http://a/x").2.2
    (by
      intro h hm r hr _
      rw [List.mem_singleton] at hm
      rw [hm])

lemma findHandler_first (uri : String) :
    ∀ (pre : List ((String → Bool) × Handler))
      (post : List ((String → Bool) × Handler))
      (regex : String → Bool) (handler : Handler),
      regex uri = true →
      (∀ ph ∈ pre, ph.1 uri = false) →
      findHandler (pre ++ (regex, handler) :: post) uri = some handler := by
  intro pre
  induction pre with
  | nil =>
    intro post regex handler hre _
    simp only [List.nil_append, findHandler, hre, if_true]
  | cons hd tl ih =>
    intro post regex handler hre hpre
    obtain ⟨r0, h0⟩ := hd
    have h0f : r0 uri = false := hpre (r0, h0) (List.mem_cons_self _ _)
    simp only [List.cons_append, findHandler, h0f, Bool.false_eq_true, if_false]
    exact ih post regex handler hre fun p hp => hpre p (List.mem_cons_of_mem _ hp)

/-- C6: route resolution is deterministic — `loadhandler` is a pure function
of the registered mapper lists and the URI, so two resolutions with the same
flow flag agree — and the handler returned is the one of the first pair in
registration order whose pattern matches the URI. -/
theorem loadhandler_deterministic_first_match
    (mappers : List ((String → Bool) × Handler) × List ((String → Bool) × Handler))
    (uri : String) (singlerequest : Bool)
    (pre post : List ((String → Bool) × Handler))
    (regex : String → Bool) (handler : Handler)
    (heq : (if singlerequest then mappers.1 else mappers.2) =
      pre ++ (regex, handler) :: post)
    (hre : regex uri = true)
    (hpre : ∀ ph ∈ pre, ph.1 uri = false) :
    loadhandler mappers uri singlerequest = .ok handler ∧
    loadhandler mappers uri singlerequest = loadhandler mappers uri singlerequest := by
  have hfind : findHandler (if singlerequest then mappers.1 else mappers.2) uri =
      some handler := by
    rw [heq]
    exact findHandler_first uri pre post regex handler hre hpre
  exact ⟨by simp only [loadhandler, hfind], rfl⟩

theorem loadhandler_deterministic_first_match_witness :
    loadhandler
        ([(fun _ => false, ⟨[], true⟩), (fun _ => true, ⟨[fun _ => true], false⟩)], [])
        "http://a/x" true =
      .ok ⟨[fun _ => true], false⟩ ∧
    loadhandler
        ([(fun _ => false, ⟨[], true⟩), (fun _ => true, ⟨[fun _ => true], false⟩)], [])
        "http://a/x" true =
      loadhandler
        ([(fun _ => false, ⟨[], true⟩), (fun _ => true, ⟨[fun _ => true], false⟩)], [])
        "http://a/x" true :=
  loadhandler_deterministic_first_match _ "http://a/x" true
    [(fun _ => false, ⟨[], true⟩)] [] (fun _ => true) ⟨[fun _ => true], false⟩
    rfl rfl
    (by
      intro ph hp
      rw [List.mem_singleton] at hp
      rw [hp])

/-- C7: on an empty timeline the timemap body is exactly the `original`,
`timegate` and `self` relations joined by comma-newline (and a trailing
newline), the `self` relation carrying no from/until bounds and no
`memento`/`first memento`/`last memento` relation being present. -/
theorem resptimemap_empty_three_links (dateStr : Int → String)
    (host tgstr tmstr uri_r : String) :
    resptimemap dateStr host tgstr tmstr [] uri_r =
      ⟨200, original_link uri_r ++ ",\n" ++ timegate_link host tgstr uri_r ++
        ",\n" ++ self_link_base host tmstr uri_r ++ "\n"⟩ := by
  simp only [resptimemap, pyJoin, TmResponse.mk.injEq, String.append_assoc,
    true_and]

lemma flLoop_spec :
    ∀ (l : Timemap) (f0 l0 : Url × Int), f0.2 ≤ l0.2 →
      (((flLoop l f0 l0).1 = f0 ∨ (flLoop l f0 l0).1 ∈ l) ∧
        (flLoop l f0 l0).1.2 ≤ f0.2 ∧
        (∀ p ∈ l, (flLoop l f0 l0).1.2 ≤ p.2)) ∧
      (((flLoop l f0 l0).2 = l0 ∨ (flLoop l f0 l0).2 ∈ l) ∧
        l0.2 ≤ (flLoop l f0 l0).2.2 ∧
        (∀ p ∈ l, p.2 ≤ (flLoop l f0 l0).2.2)) := by
  intro l
  induction l with
  | nil =>
    intro f0 l0 _
    refine ⟨⟨Or.inl rfl, le_refl _, ?_⟩, ⟨Or.inl rfl, le_refl _, ?_⟩⟩ <;>
      · intro p hp
        exact absurd hp (List.not_mem_nil p)
  | cons hd tl ih =>
    intro f0 l0 hfl
    obtain ⟨u, d⟩ := hd
    by_cases h1 : d < f0.2
    · have hstep : flLoop ((u, d) :: tl) f0 l0 = flLoop tl (u, d) l0 := by
        simp only [flLoop, if_pos h1]
      obtain ⟨⟨hfm, hfle, hfall⟩, ⟨hlm, hlle, hlall⟩⟩ :=
        ih (u, d) l0 (le_of_lt (lt_of_lt_of_le h1 hfl))
      rw [hstep]
      refine ⟨⟨?_, ?_, ?_⟩, ⟨?_, ?_, ?_⟩⟩
      · rcases hfm with hfm | hfm
        · exact Or.inr (by rw [hfm]; exact List.mem_cons_self _ _)
        · exact Or.inr (List.mem_cons_of_mem _ hfm)
      · exact le_of_lt (lt_of_le_of_lt hfle h1)
      · intro p hp
        rcases List.mem_cons.mp hp with hp | hp
        · rw [hp]; exact hfle
        · exact hfall p hp
      · rcases hlm with hlm | hlm
        · exact Or.inl hlm
        · exact Or.inr (List.mem_cons_of_mem _ hlm)
      · exact hlle
      · intro p hp
        rcases List.mem_cons.mp hp with hp | hp
        · rw [hp]
          exact le_trans (le_of_lt (lt_of_lt_of_le h1 hfl)) hlle
        · exact hlall p hp
    · by_cases h2 : d > l0.2
      · have hstep : flLoop ((u, d) :: tl) f0 l0 = flLoop tl f0 (u, d) := by
          simp only [flLoop, if_neg h1, if_pos h2]
        obtain ⟨⟨hfm, hfle, hfall⟩, ⟨hlm, hlle, hlall⟩⟩ :=
          ih f0 (u, d) (le_of_lt (lt_of_le_of_lt hfl h2))
        rw [hstep]
        refine ⟨⟨?_, ?_, ?_⟩, ⟨?_, ?_, ?_⟩⟩
        · rcases hfm with hfm | hfm
          · exact Or.inl hfm
          · exact Or.inr (List.mem_cons_of_mem _ hfm)
        · exact hfle
        · intro p hp
          rcases List.mem_cons.mp hp with hp | hp
          · rw [hp]
            exact le_trans hfle (le_of_lt (lt_of_le_of_lt hfl h2))
          · exact hfall p hp
        · rcases hlm with hlm | hlm
          · exact Or.inr (by rw [hlm]; exact List.mem_cons_self _ _)
          · exact Or.inr (List.mem_cons_of_mem _ hlm)
        · exact le_of_lt (lt_of_lt_of_le h2 hlle)
        · intro p hp
          rcases List.mem_cons.mp hp with hp | hp
          · rw [hp]; exact hlle
          · exact hlall p hp
      · have hstep : flLoop ((u, d) :: tl) f0 l0 = flLoop tl f0 l0 := by
          simp only [flLoop, if_neg h1, if_neg h2]
        obtain ⟨⟨hfm, hfle, hfall⟩, ⟨hlm, hlle, hlall⟩⟩ := ih f0 l0 hfl
        rw [hstep]
        refine ⟨⟨hfm.imp id (List.mem_cons_of_mem _), hfle, ?_⟩,
          ⟨hlm.imp id (List.mem_cons_of_mem _), hlle, ?_⟩⟩
        · intro p hp
          rcases List.mem_cons.mp hp with hp | hp
          · rw [hp]; exact le_trans hfle (not_lt.mp h1)
          · exact hfall p hp
        · intro p hp
          rcases List.mem_cons.mp hp with hp | hp
          · rw [hp]; exact le_trans (not_lt.mp h2) hlle
          · exact hlall p hp

/-- C8: on a non-empty timeline the single first/last scan of `resptimemap`
finds an entry of minimal timestamp (the chronologically earliest) and one of
maximal timestamp (the latest), and the body carries the `first memento` and
`last memento` relations for exactly those entries, the `self` relation
bounded by their timestamps via from/until, and one `memento` relation per
entry. -/
theorem resptimemap_first_last_bounds (dateStr : Int → String)
    (host tgstr tmstr : String) (m0 : Url × Int) (rest : Timemap) (uri_r : String) :
    ((flLoop (m0 :: rest) m0 m0).1 ∈ m0 :: rest ∧
      (∀ p ∈ m0 :: rest, (flLoop (m0 :: rest) m0 m0).1.2 ≤ p.2)) ∧
    ((flLoop (m0 :: rest) m0 m0).2 ∈ m0 :: rest ∧
      (∀ p ∈ m0 :: rest, p.2 ≤ (flLoop (m0 :: rest) m0 m0).2.2)) ∧
    resptimemap dateStr host tgstr tmstr (m0 :: rest) uri_r =
      ⟨200, pyJoin ",\n"
        ([original_link uri_r, timegate_link host tgstr uri_r,
          self_link_base host tmstr uri_r ++ "; from=\"" ++
            dateStr (flLoop (m0 :: rest) m0 m0).1.2 ++ "\"; until=\"" ++
            dateStr (flLoop (m0 :: rest) m0 m0).2.2 ++ "\"",
          first_link dateStr (flLoop (m0 :: rest) m0 m0).1,
          last_link dateStr (flLoop (m0 :: rest) m0 m0).2] ++
          (m0 :: rest).map (memento_link dateStr)) ++ "\n"⟩ := by
  obtain ⟨⟨hfm, _, hfall⟩, ⟨hlm, _, hlall⟩⟩ :=
    flLoop_spec (m0 :: rest) m0 m0 (le_refl _)
  refine ⟨⟨?_, hfall⟩, ⟨?_, hlall⟩, rfl⟩
  · rcases hfm with hfm | hfm
    · rw [hfm]; exact List.mem_cons_self _ _
    · exact hfm
  · rcases hlm with hlm | hlm
    · rw [hlm]; exact List.mem_cons_self _ _
    · exact hlm

/-- C9 (the claim fails on the code): at status 405 and message `"x"` the
error body is `"405 \n x \n"` — the format string `"%s \n %s \n"` puts a
space on each side of the newlines — not `"405\nx\n"`. -/
theorem resperror_body_counterexample :
    resperror 405 "x" ≠ ["405\nx\n"] ∧
    resperror 405 "x" = ["405 \n x \n"] := by
  exact ⟨by decide, rfl⟩

/-- C9 (amended): every error response body is the single string
`"<status> \n <message> \n"` — status, space, newline, space, message, space,
newline — exactly as produced by `"%s \n %s \n" % (status, message)`. -/
theorem resperror_body_format (status : Nat) (message : String) :
    resperror status message = [toString status ++ " \n " ++ message ++ " \n"] :=
  rfl

/-- C10: whenever the requested-time string parses (in strict or lenient
mode), `validate_req_datetime` returns the parsed wall-clock reading with its
`tzinfo` overwritten by `tzutc()` — no instant conversion — so two
lenient-mode inputs naming the same wall-clock time under different UTC
offsets validate to equal results. -/
theorem validate_req_datetime_utc_overwrite
    (parse : String → Except String PyDatetime) (s1 s2 : String)
    (d1 d2 : PyDatetime) (h1 : parse s1 = .ok d1) (h2 : parse s2 = .ok d2)
    (hw : d1.wall = d2.wall) :
    validate_req_datetime parse s1 = .ok ⟨d1.wall, tzutc⟩ ∧
    validate_req_datetime parse s1 = validate_req_datetime parse s2 := by
  constructor
  · simp only [validate_req_datetime, h1, datetimeReplaceTz]
  · simp only [validate_req_datetime, h1, h2, datetimeReplaceTz, hw]

theorem validate_req_datetime_utc_overwrite_witness :
    validate_req_datetime
        (fun s => if s = "a" then .ok ⟨42, some 60⟩ else .ok ⟨42, some (-300)⟩)
        "a" = .ok ⟨42, tzutc⟩ ∧
    validate_req_datetime
        (fun s => if s = "a" then .ok ⟨42, some 60⟩ else .ok ⟨42, some (-300)⟩)
        "a" =
      validate_req_datetime
        (fun s => if s = "a" then .ok ⟨42, some 60⟩ else .ok ⟨42, some (-300)⟩)
        "b" :=
  validate_req_datetime_utc_overwrite _ "a" "b" ⟨42, some 60⟩ ⟨42, some (-300)⟩
    rfl rfl rfl
